import Mathlib

/-!
# Verification of MashedPotato (mashed_potato.py)

A shallow embedding of the staleness-detection and error-tracking core of
MashedPotato, an automatic JavaScript/CSS minifier monitor, together with
proofs about it.

Conventions of the embedding:
* Python strings are embedded as `List Char` (the `Path` abbreviation).
* Python `float` timestamps are embedded as `Int`: every comparison the
  program performs on timestamps is order-theoretic, and the divergences of
  interest already occur at integer values.  Python truthiness of a
  timestamp (`0.0` and `None` are falsy) is modelled explicitly.
* The module-level dict `error_files` and the on-disk `MASH_ERRORS` file are
  modelled by the explicit state `MashState`; `update_error_logs` becomes a
  state-passing function.
* Fallible code (a Python `NameError` / uncaught exception) is modelled with
  `Option` / `Except`.
-/

namespace MashedPotato

/-- Paths and other Python strings, embedded as lists of characters. -/
abbrev Path := List Char

/-! ## StalenessOracle: `needs_minifying` (mashed_potato.py lines 122-145)

The source reads three timestamps and decides purely from them:
```python
source_edited_time = os.path.getmtime(file_path)
last_minified_time = None
if os.path.exists(minified_file_path):
    last_minified_time = os.path.getmtime(minified_file_path)
if last_minified_time and last_minified_time > source_edited_time:
    return False
if error_files.get(file_path, -1) > source_edited_time:
    return False
return True
```
We embed the decision as a function of
`source_edited_time` (the source mtime, which must exist),
`last_minified_time` (`none` when the artifact file does not exist) and
`error_entry` (`none` when `file_path` is not a key of `error_files`,
mirroring `error_files.get(file_path, -1)` via `Option.getD (-1)`).
-/

/-- Embeds `needs_minifying`.  Note two Python details kept faithfully:
the first guard is `if last_minified_time and ...`, so an artifact
timestamp of `0` is *falsy* and treated like an absent artifact; and a
missing `error_files` entry defaults to `-1` before the comparison. -/
def needs_minifying (source_edited_time : Int) (last_minified_time : Option Int)
    (error_entry : Option Int) : Bool :=
  if (match last_minified_time with
      | none => false
      | some t => decide (t ≠ 0) && decide (source_edited_time < t)) then
    false
  else if error_entry.getD (-1) > source_edited_time then
    false
  else
    true

/-- Modelled from the spec's words (section 4.2), for comparison with
`needs_minifying`: return false iff the artifact time is present and
strictly greater than the source time, or the failure time is present and
strictly greater than the source time; strictly-greater comparisons only. -/
def needsProcessing_spec (src_t : Int) (art_t fail_t : Option Int) : Bool :=
  if (match art_t with
      | none => false
      | some t => decide (src_t < t)) then
    false
  else if (match fail_t with
      | none => false
      | some t => decide (src_t < t)) then
    false
  else
    true

/-! ## ErrorLedger: the `error_files` dict and `update_error_logs`
(mashed_potato.py lines 34-35 and 192-216) -/

/-- Python dict assignment `d[k] = v`: replace the value in place if the key
is present (dicts have unique keys), otherwise append the new binding. -/
def dictSet (k : Path) (v : Int) : List (Path × Int) → List (Path × Int)
  | [] => [(k, v)]
  | (k', v') :: rest =>
      if k' = k then (k, v) :: rest else (k', v') :: dictSet k v rest

/-- Python dict deletion `del d[k]`: remove the (unique) binding of `k`. -/
def dictDel (k : Path) : List (Path × Int) → List (Path × Int)
  | [] => []
  | (k', v') :: rest =>
      if k' = k then rest else (k', v') :: dictDel k rest

/-- Python dict lookup `d.get(k)` / `d[k]`. -/
def dictGet (k : Path) (d : List (Path × Int)) : Option Int :=
  (d.find? (fun e => e.1 = k)).map (fun e => e.2)

/-- Python membership test `k in d`. -/
def dictMem (k : Path) (d : List (Path × Int)) : Bool :=
  d.any (fun e => e.1 = k)

/-- The mutable state touched by `update_error_logs`: the module-level dict
`error_files` (failing path ↦ failure time, in insertion order, unique
keys) and the contents of the `MASH_ERRORS` file at the project root
(`none` when the file is absent from disk). -/
structure MashState where
  error_files : List (Path × Int)
  mash_errors : Option (List Path)
  deriving DecidableEq, Repr

/-- The state at interpreter start: `error_files = {}` (line 35) and no
`MASH_ERRORS` file on disk. -/
def initState : MashState := ⟨[], none⟩

/-- Embeds `update_error_logs(errored, path)` (lines 192-216); `now` stands
for the value of `time.time()` at the call.  On failure, record the path
with the current time; on success, delete the path if present.  Then
rewrite `MASH_ERRORS` with all current keys if the dict is non-empty, else
remove the file (a no-op when it is already absent). -/
def update_error_logs (errored : Bool) (path : Path) (now : Int)
    (s : MashState) : MashState :=
  let ef :=
    if errored then
      dictSet path now s.error_files
    else
      if dictMem path s.error_files then dictDel path s.error_files
      else s.error_files
  { error_files := ef,
    mash_errors := if ef = [] then none else some (ef.map Prod.fst) }

/-- One recorded outcome: the `errored` flag, the source path, and the
`time.time()` value observed during the call. -/
abbrev Outcome := Bool × Path × Int

/-- Run a finite sequence of `update_error_logs` calls from a state. -/
def runOutcomes (s : MashState) : List Outcome → MashState
  | [] => s
  | (e, p, t) :: rest => runOutcomes (update_error_logs e p t s) rest

/-! ## Python string helpers used by the source -/

/-- The characters Python's `str.strip()` removes. -/
def pyIsSpace (c : Char) : Bool :=
  c = ' ' || c = '\t' || c = '\n' || c = '\x0d' || c = '\x0b' || c = '\x0c'

/-- Python `line.strip()`: drop leading and trailing whitespace. -/
def pyStrip (l : Path) : Path :=
  ((l.dropWhile pyIsSpace).reverse.dropWhile pyIsSpace).reverse

/-- Python `text.split(c)` for a single-character separator: the list of
(possibly empty) chunks between occurrences of `c`; always non-empty. -/
def splitOnChar (c : Char) : Path → List Path
  | [] => [[]]
  | x :: xs =>
      match splitOnChar c xs with
      | [] => [[x]]
      | chunk :: rest =>
          if x = c then [] :: chunk :: rest else (x :: chunk) :: rest

/-- `os.path.join(a, b)` with POSIX rules: an absolute `b` wins; otherwise
concatenate, inserting `'/'` unless `a` is empty or already ends in `'/'`. -/
def pyJoin (a b : Path) : Path :=
  if b.head? = some '/' then b
  else if a = [] ∨ a.getLast? = some '/' then a ++ b
  else a ++ '/' :: b

/-- The tail component of `os.path.split(p)` (POSIX): everything after the
last `'/'`, or all of `p` when it contains no `'/'`. -/
def pyBasename (p : Path) : Path :=
  (p.reverse.takeWhile (fun c => c ≠ '/')).reverse

/-- `path.replace('\\', '/')`: normalize separators. -/
def normalizeSeps (p : Path) : Path :=
  p.map (fun c => if c = '\\' then '/' else c)

/-! ## PathMatcher: configuration parsing
(mashed_potato.py lines 40-80) -/

/-- Embeds `get_path_regexp(project_path, relative_regexp)` (lines 62-73):
join to the project root, normalize separators, then wrap with the `'^'`
and `'$'` anchors via `"^%s$"`. -/
def get_path_regexp (project_path relative_regexp : Path) : Path :=
  '^' :: normalizeSeps (pyJoin project_path relative_regexp) ++ ['$']

/-- The per-line loop body of `get_paths_from_configuration` (lines 48-57),
scanning the already-split lines in order: strip the line; skip it when it
is blank or starts with `'#'`; skip it (after printing a warning) when it
ends with `'/'`; otherwise emit `get_path_regexp` of it. -/
def collectPatterns (project_path : Path) : List Path → List Path
  | [] => []
  | line :: rest =>
      let l := pyStrip line
      if l ≠ [] ∧ ¬ l.head? = some '#' then
        if l.getLast? = some '/' then collectPatterns project_path rest
        else get_path_regexp project_path l :: collectPatterns project_path rest
      else collectPatterns project_path rest

/-- Embeds `get_paths_from_configuration(project_path, configuration_file)`
(lines 40-59).  Pure string processing: the source never invokes the regex
engine here, so the function is total and performs no syntax validation. -/
def get_paths_from_configuration (project_path configuration_file : Path) :
    List Path :=
  collectPatterns project_path (splitOnChar '\n' configuration_file)

/-! ## A model of Python `re.match` for the pattern fragment the program
builds.  The patterns produced by `get_path_regexp` consist of the config
line's characters plus the anchors, so the metacharacters that matter for
the claims are `'^'`, `'$'` and the alternation bar `'|'`; every other
character is a literal.  `re.match` requires the match to start at
position 0 of the string but lets it end anywhere. -/

/-- Regex abstract syntax for the fragment: empty, literal character,
concatenation, alternation, and the two anchors. -/
inductive Rx
  | eps
  | lit (c : Char)
  | seq (a b : Rx)
  | alt (a b : Rx)
  | bol
  | eol
  deriving Repr

/-- All positions where `r` can finish, matching inside the full string
`full` starting at position `i`. -/
def runRx (full : Path) : Rx → Nat → List Nat
  | .eps, i => [i]
  | .lit c, i =>
      match (full.drop i).head? with
      | some d => if d = c then [i + 1] else []
      | none => []
  | .seq a b, i => (runRx full a i).flatMap (runRx full b)
  | .alt a b, i => runRx full a i ++ runRx full b i
  | .bol, i => if i = 0 then [i] else []
  | .eol, i => if i = full.length then [i] else []

/-- Parse one alternation-free branch: a sequence of atoms, where `'^'` is
the begin anchor, `'$'` the end anchor, and anything else a literal. -/
def parseBranch : Path → Rx
  | [] => .eps
  | c :: rest =>
      .seq (if c = '^' then .bol else if c = '$' then .eol else .lit c)
        (parseBranch rest)

/-- Parse a pattern of the fragment: split on the top-level alternation
bars (the fragment has no groups) and fold the branches with `Rx.alt`. -/
def parseRx (pattern : Path) : Rx :=
  match (splitOnChar '|' pattern).map parseBranch with
  | [] => .eps
  | b :: bs => bs.foldl .alt b

/-- Python `re.match(pattern, s)` is truthy iff some match starts at
position 0 (it may end anywhere before the end of `s`). -/
def re_match (pattern s : Path) : Bool :=
  ¬ (runRx s (parseRx pattern) 0).isEmpty

/-- Modelled from the spec's words (section 4.1): the pattern "fully
matches" the string — some match starts at position 0 and ends exactly at
the end of the string. -/
def wholePathMatch (pattern s : Path) : Bool :=
  (runRx s (parseRx pattern) 0).contains s.length

/-- Embeds `path_matches_regexps(path, path_regexps)` (lines 76-80):
normalize separators in the path, then `any(re.match(regexp, path) ...)`. -/
def path_matches_regexps (path : Path) (path_regexps : List Path) : Bool :=
  path_regexps.any (fun regexp => re_match regexp (normalizeSeps path))

/-! ## SourceFile eligibility and artifact naming
(mashed_potato.py lines 83-119) -/

/-- Embeds `is_minifiable(file_path)` (lines 83-104): split off the file
name, then reject dotfiles, non-`.js`/`.css` names, and names that are
already minified artifacts.  All three checks look only at the basename. -/
def is_minifiable (file_path : Path) : Bool :=
  let file_name := pyBasename file_path
  if file_name.head? = some '.' then false
  else if ¬ (['.', 'j', 's'].isSuffixOf file_name ∨
             ['.', 'c', 's', 's'].isSuffixOf file_name) then false
  else if ['.', 'm', 'i', 'n', '.', 'j', 's'].isSuffixOf file_name ∨
          ['.', 'm', 'i', 'n', '.', 'c', 's', 's'].isSuffixOf file_name then
    false
  else true

/-- Embeds `get_minified_name(file_path)` (lines 107-119).  The Python
loop tries the suffixes `'.js'` then `'.css'`; when one matches it sets
`minified_path = file_path[:-len(ext)] + '.min' + ext`.  When neither
matches, `minified_path` was never assigned and the final `return` raises
`NameError`; that fallthrough is modelled as `none`. -/
def get_minified_name (file_path : Path) : Option Path :=
  if ['.', 'j', 's'].isSuffixOf file_path then
    some (file_path.take (file_path.length - 3) ++ ['.', 'm', 'i', 'n', '.', 'j', 's'])
  else if ['.', 'c', 's', 's'].isSuffixOf file_path then
    some (file_path.take (file_path.length - 4) ++ ['.', 'm', 'i', 'n', '.', 'c', 's', 's'])
  else none

/-! ## MonitorLoop pass: `minify`, `minify_and_log` and the per-directory
loop (mashed_potato.py lines 161-189 and 228-246).

`minify` shells out to an external tool.  Two distinct failures occur in
the source: `subprocess.Popen` itself raises `OSError` (the tool cannot be
launched), upon which the handler prints and calls `sys.exit()`; or the
launched process writes to stderr, upon which `minify` raises
`MinifyFailed`.  We model the environment's response to launching the
command for a given file with `LaunchResult`, and the two non-local exits
with `Except`. -/

/-- What the operating system does when `minify` launches the external
tool for a file: `oserror` (the `subprocess.Popen` call raises `OSError`)
or `started stderr` (the process runs and `p.stderr.read()` yields
`stderr`). -/
inductive LaunchResult
  | oserror
  | started (stderr : Path)
  deriving DecidableEq, Repr

/-- The `MinifyFailed` exception (mashed_potato.py line 37). -/
inductive MinifyFailed
  | mk
  deriving DecidableEq, Repr

/-- `sys.exit()` reached from the `OSError` handler in `minify`
(line 185): the whole process terminates. -/
inductive ProcessExit
  | sysExit
  deriving DecidableEq, Repr

/-- Embeds the control flow of `minify(file_path)` (lines 161-189) given
the environment's `LaunchResult` for that file: an `OSError` from `Popen`
leads to `sys.exit()`; otherwise any non-empty stderr output raises
`MinifyFailed`; otherwise the call returns normally. -/
def minify (launch : LaunchResult) : Except ProcessExit (Except MinifyFailed Unit) :=
  match launch with
  | .oserror => .error .sysExit
  | .started stderr =>
      if stderr = [] then .ok (.ok ()) else .ok (.error .mk)

/-- Embeds `minify_and_log(file_path)` (lines 228-238): call `minify`;
on normal return record a success outcome, on `MinifyFailed` record a
failure outcome — either way the pass continues.  A `sys.exit()` raised
inside `minify` is *not* caught (only `MinifyFailed` is) and propagates.
`env` gives the environment's launch behaviour per file and `now` the
`time.time()` value used when recording a failure. -/
def minify_and_log (env : Path → LaunchResult) (now : Int) (file_path : Path)
    (s : MashState) : Except ProcessExit MashState :=
  match minify (env file_path) with
  | .error e => .error e
  | .ok (.ok _) => .ok (update_error_logs false file_path now s)
  | .ok (.error _) => .ok (update_error_logs true file_path now s)

/-- The per-file loop of `minify_all_in_directory` (lines 241-246),
applied to the files of one directory that passed the
`is_minifiable and needs_minifying` filter: process them in order,
threading the ledger state; an uncaught `ProcessExit` aborts the loop. -/
def processFiles (env : Path → LaunchResult) (now : Int) :
    List Path → MashState → Except ProcessExit MashState
  | [], s => .ok s
  | f :: fs, s =>
      match minify_and_log env now f s with
      | .error e => .error e
      | .ok s' => processFiles env now fs s'

/-- One pass over the watched directories (the loop of
`continually_monitor_files`, lines 249-253 / 282-289): run the per-file
loop for each directory's flagged files in turn; an uncaught
`ProcessExit` aborts the whole pass (and the process). -/
def processDirectories (env : Path → LaunchResult) (now : Int) :
    List (List Path) → MashState → Except ProcessExit MashState
  | [], s => .ok s
  | d :: ds, s =>
      match processFiles env now d s with
      | .error e => .error e
      | .ok s' => processDirectories env now ds s'

/-- The ledger update that one file's attempt performs when its tool
launch succeeds: a failure outcome iff the tool wrote to stderr.  Used to
state what a completed pass did. -/
def recordedOutcome (env : Path → LaunchResult) (now : Int) (s : MashState)
    (f : Path) : MashState :=
  update_error_logs (env f ≠ .started []) f now s

/-- Modelled from the spec's words (sections 4.1 and 8), for comparison
with `get_paths_from_configuration`: a configuration line (already
stripped) is eligible iff it is non-blank, not a comment, and does not end
in `'/'`. -/
def eligibleLine (l : Path) : Bool :=
  decide (l ≠ []) && decide (¬ l.head? = some '#') &&
    decide (¬ l.getLast? = some '/')

/-! ## Helper lemmas -/

theorem dictGet_dictSet_self (k : Path) (v : Int) (d : List (Path × Int)) :
    dictGet k (dictSet k v d) = some v := by
  induction d with
  | nil => simp [dictGet, dictSet, List.find?]
  | cons e rest ih =>
      by_cases h : e.1 = k
      · simp [dictSet, h, dictGet, List.find?]
      · simpa [dictSet, h, dictGet, List.find?_cons_of_neg, List.find?] using ih

theorem dictDel_of_get_none (k : Path) (d : List (Path × Int))
    (h : dictGet k d = none) : dictDel k d = d := by
  induction d with
  | nil => rfl
  | cons e rest ih =>
      by_cases he : e.1 = k
      · simp [dictGet, List.find?, he] at h
      · have hr : dictGet k rest = none := by
          simpa [dictGet, List.find?, he] using h
        simp [dictDel, he, ih hr]

theorem dictMem_eq_isSome (k : Path) (d : List (Path × Int)) :
    dictMem k d = (dictGet k d).isSome := by
  induction d with
  | nil => rfl
  | cons e rest ih =>
      by_cases he : e.1 = k
      · simp [dictMem, dictGet, List.find?, he]
      · simpa [dictMem, dictGet, List.find?, he] using ih

theorem dictGet_dictDel_self (k : Path) (d : List (Path × Int))
    (hnd : (d.map Prod.fst).Nodup) : dictGet k (dictDel k d) = none := by
  induction d with
  | nil => rfl
  | cons e rest ih =>
      have hpair := List.nodup_cons.mp hnd
      by_cases he : e.1 = k
      · have hnone : dictGet k rest = none := by
          rcases hfind : rest.find? (fun x => x.1 = k) with _ | entry
          · simp [dictGet, hfind]
          · exfalso
            have h1 : entry.1 = k := by simpa using List.find?_some hfind
            have h2 : entry ∈ rest := List.mem_of_find?_eq_some hfind
            have hk : (k : Path) ∈ rest.map Prod.fst :=
              h1 ▸ List.mem_map_of_mem Prod.fst h2
            exact hpair.1 (he ▸ hk)
        simp [dictDel, he, hnone]
      · simpa [dictDel, he, dictGet, List.find?] using ih hpair.2

theorem takeWhile_append_stop {p : Char → Bool} (l₁ l₂ : Path) (a : Char)
    (h₁ : ∀ x ∈ l₁, p x = true) (ha : p a = false) :
    (l₁ ++ a :: l₂).takeWhile p = l₁ := by
  induction l₁ with
  | nil => simp [List.takeWhile, ha]
  | cons x xs ih =>
      have hx : p x = true := h₁ x (by simp)
      have hxs : ∀ y ∈ xs, p y = true := fun y hy => h₁ y (by simp [hy])
      simp [List.takeWhile, hx, ih hxs]

theorem pyBasename_append (dir base : Path) (h : '/' ∉ base) :
    pyBasename (dir ++ '/' :: base) = base := by
  unfold pyBasename
  have hrev : (dir ++ '/' :: base).reverse = base.reverse ++ '/' :: dir.reverse := by
    simp
  rw [hrev, takeWhile_append_stop]
  · simp
  · intro x hx
    have : x ∈ base := by simpa using hx
    simp [decide_eq_true_eq]
    exact fun hx' => h (hx' ▸ this)
  · simp

theorem pyBasename_suffix (p : Path) : pyBasename p <:+ p := by
  refine ⟨(p.reverse.dropWhile (fun c => decide (c ≠ '/'))).reverse, ?_⟩
  unfold pyBasename
  rw [← List.reverse_append, List.takeWhile_append_dropWhile, List.reverse_reverse]

theorem suffix_same_length_eq {l₁ l₂ l : Path} (h₁ : l₁ <:+ l) (h₂ : l₂ <:+ l)
    (h : l₁.length = l₂.length) : l₁ = l₂ := by
  obtain ⟨t₁, e₁⟩ := h₁
  obtain ⟨t₂, e₂⟩ := h₂
  have e : t₁ ++ l₁ = t₂ ++ l₂ := e₁.trans e₂.symm
  have hlen : t₁.length = t₂.length := by
    have := congrArg List.length e
    simp [List.length_append] at this
    omega
  exact (List.append_inj e hlen).2

theorem splitOnChar_no_sep (c : Char) (l : Path) (h : c ∉ l) :
    splitOnChar c l = [l] := by
  induction l with
  | nil => rfl
  | cons x xs ih =>
      have hx : ¬ x = c := fun hxc => h (by simp [hxc])
      have hxs : c ∉ xs := fun hc => h (by simp [hc])
      simp only [splitOnChar, ih hxs]
      simp [hx]

theorem collectPatterns_eq (proj : Path) (lines : List Path) :
    collectPatterns proj lines =
      ((lines.map pyStrip).filter eligibleLine).map (get_path_regexp proj) := by
  induction lines with
  | nil => rfl
  | cons line rest ih =>
      by_cases h1 : pyStrip line = []
      · simp [collectPatterns, h1, eligibleLine, ih]
      · by_cases h2 : (pyStrip line).head? = some '#'
        · simp [collectPatterns, h1, h2, eligibleLine, ih]
        · by_cases h3 : (pyStrip line).getLast? = some '/'
          · simp [collectPatterns, h1, h2, h3, eligibleLine, ih]
          · simp [collectPatterns, h1, h2, h3, eligibleLine, ih]

theorem update_error_logs_inv (e : Bool) (p : Path) (t : Int) (s : MashState) :
    ((update_error_logs e p t s).mash_errors = none ↔
      (update_error_logs e p t s).error_files = []) ∧
    (∀ ls, (update_error_logs e p t s).mash_errors = some ls →
      ls = (update_error_logs e p t s).error_files.map Prod.fst) := by
  unfold update_error_logs
  by_cases hef :
      (if e then dictSet p t s.error_files
       else if dictMem p s.error_files then dictDel p s.error_files
       else s.error_files) = [] <;>
    simp [hef]

theorem runOutcomes_inv (ops : List Outcome) (s : MashState)
    (hs : (s.mash_errors = none ↔ s.error_files = []) ∧
      (∀ ls, s.mash_errors = some ls → ls = s.error_files.map Prod.fst)) :
    ((runOutcomes s ops).mash_errors = none ↔
      (runOutcomes s ops).error_files = []) ∧
    (∀ ls, (runOutcomes s ops).mash_errors = some ls →
      ls = (runOutcomes s ops).error_files.map Prod.fst) := by
  induction ops generalizing s with
  | nil => exact hs
  | cons op rest ih =>
      exact ih (update_error_logs op.1 op.2.1 op.2.2 s)
        (update_error_logs_inv op.1 op.2.1 op.2.2 s)

theorem processFiles_ok (env : Path → LaunchResult) (now : Int)
    (fs : List Path) (s : MashState) (h : ∀ f ∈ fs, env f ≠ .oserror) :
    processFiles env now fs s = .ok (fs.foldl (recordedOutcome env now) s) := by
  induction fs generalizing s with
  | nil => rfl
  | cons f rest ih =>
      have hf : env f ≠ .oserror := h f (by simp)
      rcases hl : env f with _ | stderr
      · exact absurd hl hf
      · by_cases hstd : stderr = [] <;>
          simp [processFiles, minify_and_log, minify, hl, hstd,
            recordedOutcome, ih _ (fun g hg => h g (by simp [hg]))]

theorem processFiles_error_iff (env : Path → LaunchResult) (now : Int)
    (fs : List Path) (s : MashState) :
    (processFiles env now fs s = .error .sysExit) ↔
      ∃ f ∈ fs, env f = .oserror := by
  induction fs generalizing s with
  | nil => simp [processFiles]
  | cons f rest ih =>
      rcases hl : env f with _ | stderr
      · simp [processFiles, minify_and_log, minify, hl]
      · by_cases hstd : stderr = [] <;>
          simp [processFiles, minify_and_log, minify, hl, hstd, ih]

theorem processDirectories_ok (env : Path → LaunchResult) (now : Int)
    (ds : List (List Path)) (s : MashState)
    (h : ∀ f ∈ ds.flatten, env f ≠ .oserror) :
    processDirectories env now ds s =
      .ok (ds.flatten.foldl (recordedOutcome env now) s) := by
  induction ds generalizing s with
  | nil => rfl
  | cons d rest ih =>
      have hd : ∀ f ∈ d, env f ≠ .oserror := fun f hf =>
        h f (by simp [hf])
      have hrest : ∀ f ∈ rest.flatten, env f ≠ .oserror := fun f hf =>
        h f (by simp [hf])
      simp [processDirectories, processFiles_ok env now d s hd, ih _ hrest,
        List.foldl_append]

theorem processDirectories_error_iff (env : Path → LaunchResult) (now : Int)
    (ds : List (List Path)) (s : MashState) :
    (processDirectories env now ds s = .error .sysExit) ↔
      ∃ f ∈ ds.flatten, env f = .oserror := by
  induction ds generalizing s with
  | nil => simp [processDirectories]
  | cons d rest ih =>
      by_cases hd : ∃ f ∈ d, env f = .oserror
      · have : processFiles env now d s = .error .sysExit :=
          (processFiles_error_iff env now d s).mpr hd
        simp [processDirectories, this]
        obtain ⟨f, hf, hl⟩ := hd
        exact ⟨f, Or.inl hf, hl⟩
      · have hok : ∀ f ∈ d, env f ≠ .oserror := by
          intro f hf hl
          exact hd ⟨f, hf, hl⟩
        simp [processDirectories, processFiles_ok env now d s hok, ih]
        constructor
        · intro ⟨f, hf, hl⟩
          exact ⟨f, Or.inr hf, hl⟩
        · rintro ⟨f, hf | hf, hl⟩
          · exact absurd hl (hok f hf)
          · exact ⟨f, hf, hl⟩

theorem isSuffixOf_append_self (ext stem : Path) :
    ext.isSuffixOf (stem ++ ext) = true :=
  List.isSuffixOf_iff_suffix.mpr (List.suffix_append stem ext)

theorem take_sub_three (stem : Path) :
    (stem ++ ['.', 'j', 's']).take ((stem ++ ['.', 'j', 's']).length - 3) =
      stem := by
  have h : (stem ++ ['.', 'j', 's']).length - 3 = stem.length := by
    simp [List.length_append]
  rw [h]
  exact List.take_left stem _

theorem take_sub_four (stem : Path) :
    (stem ++ ['.', 'c', 's', 's']).take
      ((stem ++ ['.', 'c', 's', 's']).length - 4) = stem := by
  have h : (stem ++ ['.', 'c', 's', 's']).length - 4 = stem.length := by
    simp [List.length_append]
  rw [h]
  exact List.take_left stem _

theorem js_not_suffixOf_css (stem : Path) :
    ['.', 'j', 's'].isSuffixOf (stem ++ ['.', 'c', 's', 's']) = false := by
  rcases hb : ['.', 'j', 's'].isSuffixOf (stem ++ ['.', 'c', 's', 's']) with _ | _
  · rfl
  · exfalso
    have hs : ['.', 'j', 's'] <:+ stem ++ ['.', 'c', 's', 's'] :=
      List.isSuffixOf_iff_suffix.mp hb
    have hc : ['c', 's', 's'] <:+ stem ++ ['.', 'c', 's', 's'] := by
      have he : stem ++ ['.', 'c', 's', 's'] =
          (stem ++ ['.']) ++ ['c', 's', 's'] := by simp
      rw [he]
      exact List.suffix_append _ _
    have := suffix_same_length_eq hs hc rfl
    simp at this

theorem is_minifiable_has_ext (q : Path) (h : is_minifiable q = true) :
    ['.', 'j', 's'].isSuffixOf (pyBasename q) = true ∨
      ['.', 'c', 's', 's'].isSuffixOf (pyBasename q) = true := by
  unfold is_minifiable at h
  simp only at h
  split_ifs at h with h1 h2 h3
  exact h2

/-! ## Claim theorems -/

/-- C1 (counterexample).  The claim says `needs_minifying` returns true
whenever neither an artifact time greater than the source time nor a
failure time greater than the source time is present.  At source mtime
`-2` (a pre-epoch file) with no artifact and no recorded failure, the
source's `error_files.get(file_path, -1) > source_edited_time` comparison
sees `-1 > -2` and returns false, diverging from the claim. -/
theorem needs_minifying_neg_time_counterexample :
    needs_minifying (-2) none none = false ∧
      needsProcessing_spec (-2) none none = true := by
  decide

/-- C1 (amended).  For every nonnegative source mtime `src` — i.e., every
mtime the OS reports for a file not dated before the epoch — and all
artifact and failure entries, `needs_minifying` decides exactly as the
claim states: false if the artifact time is present and strictly greater
than the source time, false if the failure time is present and strictly
greater than the source time, true otherwise; comparisons are
strictly-greater only, so equal timestamps yield true. -/
theorem needs_minifying_matches_oracle_spec (src : Int) (art ft : Option Int)
    (h : 0 ≤ src) :
    needs_minifying src art ft = needsProcessing_spec src art ft := by
  rcases art with _ | a <;> rcases ft with _ | f <;>
    simp only [needs_minifying, needsProcessing_spec, Option.getD_none,
      Option.getD_some] <;>
    split_ifs <;> simp_all <;> omega

/-- C1 (witness for the amended theorem): concrete instance with an
artifact strictly newer than the source and with equal timestamps. -/
theorem needs_minifying_matches_oracle_spec_witness :
    0 ≤ (4 : Int) ∧
      needs_minifying 4 (some 9) none = needsProcessing_spec 4 (some 9) none ∧
      needs_minifying 4 (some 4) (some 4) =
        needsProcessing_spec 4 (some 4) (some 4) := by
  refine ⟨by decide, ?_, ?_⟩
  · exact needs_minifying_matches_oracle_spec 4 (some 9) none (by decide)
  · exact needs_minifying_matches_oracle_spec 4 (some 4) (some 4) (by decide)

/-- C2 (counterexample).  After a failure is recorded at time `T = 5` for
a file, and the file's mtime then becomes `10 > T`, the claim says
`needs_minifying` returns true; but when the on-disk artifact carries an
even newer mtime (`20`), the artifact guard fires first and the source
returns false. -/
theorem retry_after_modification_counterexample :
    needs_minifying 10 (some 20)
      (dictGet ['f'] (update_error_logs true ['f'] 5 initState).error_files) =
      false := by
  decide

/-- C2 (amended).  After `update_error_logs(errored=True, path)` at time
`T`, the ledger maps `path` to `T`; every `needs_minifying` check for a
source mtime below `T` returns false (retry suppressed, whatever the
artifact state); and once the source mtime exceeds `T`, `needs_minifying`
returns true — provided the artifact's mtime does not exceed the
source's (otherwise the artifact-currency rule independently returns
false, which the original claim overlooked). -/
theorem retry_suppression_after_failure (s : MashState) (p : Path)
    (T src : Int) (art : Option Int) :
    dictGet p (update_error_logs true p T s).error_files = some T ∧
    (src < T →
      needs_minifying src art
        (dictGet p (update_error_logs true p T s).error_files) = false) ∧
    (T < src → (∀ a, art = some a → a ≤ src) →
      needs_minifying src art
        (dictGet p (update_error_logs true p T s).error_files) = true) := by
  have hget : dictGet p (update_error_logs true p T s).error_files = some T := by
    simp [update_error_logs]
    exact dictGet_dictSet_self p T s.error_files
  refine ⟨hget, ?_, ?_⟩
  · intro hsrc
    rw [hget]
    rcases art with _ | a <;>
      simp only [needs_minifying, Option.getD_some] <;>
      split_ifs <;> simp_all
  · intro hsrc hart
    rw [hget]
    rcases art with _ | a
    · simp only [needs_minifying, Option.getD_some]
      split_ifs <;> simp_all
      omega
    · have ha : a ≤ src := hart a rfl
      simp only [needs_minifying, Option.getD_some]
      split_ifs <;> simp_all <;> omega

/-- C2 (witness for the amended theorem): failure recorded at `T = 5`;
with unchanged source mtime `3 < 5` the check returns false, and with
source mtime `8 > 5` (artifact absent) it returns true. -/
theorem retry_suppression_after_failure_witness :
    (3 : Int) < 5 ∧ (5 : Int) < 8 ∧
    needs_minifying 3 none
      (dictGet ['f'] (update_error_logs true ['f'] 5 initState).error_files) =
      false ∧
    needs_minifying 8 none
      (dictGet ['f'] (update_error_logs true ['f'] 5 initState).error_files) =
      true := by
  refine ⟨by decide, by decide, ?_, ?_⟩
  · exact (retry_suppression_after_failure initState ['f'] 5 3 none).2.1
      (by decide)
  · exact (retry_suppression_after_failure initState ['f'] 5 8 none).2.2
      (by decide) (fun a ha => by simp at ha)

/-- C3.  After any finite sequence of `update_error_logs` calls from the
program's initial state, the `MASH_ERRORS` file is absent from disk iff
the in-memory `error_files` table is empty, and when present its lines are
exactly the table's key set (in iteration order).  Moreover a success
outcome removes the path from the table unconditionally: the resulting
table is always `dictDel path` of the old one, recording a success for an
absent path is a no-op, and (for the duplicate-free tables the dict
invariant guarantees) the path is no longer a key afterwards. -/
theorem error_ledger_disk_consistency (ops : List Outcome) :
    ((runOutcomes initState ops).mash_errors = none ↔
      (runOutcomes initState ops).error_files = []) ∧
    (∀ ls, (runOutcomes initState ops).mash_errors = some ls →
      ls = (runOutcomes initState ops).error_files.map Prod.fst) ∧
    (∀ (s : MashState) (p : Path) (t : Int),
      (update_error_logs false p t s).error_files = dictDel p s.error_files ∧
      (dictGet p s.error_files = none →
        (update_error_logs false p t s).error_files = s.error_files) ∧
      ((s.error_files.map Prod.fst).Nodup →
        dictGet p ((update_error_logs false p t s).error_files) = none)) := by
  have hinv := runOutcomes_inv ops initState (by simp [initState])
  refine ⟨hinv.1, hinv.2, ?_⟩
  intro s p t
  have hmemget : dictMem p s.error_files = false →
      dictGet p s.error_files = none := by
    intro hm
    rcases hdg : dictGet p s.error_files with _ | v
    · rfl
    · rw [dictMem_eq_isSome, hdg] at hm
      simp at hm
  refine ⟨?_, ?_, ?_⟩
  · by_cases hm : dictMem p s.error_files
    · simp [update_error_logs, hm]
    · have hg := hmemget (by simpa using hm)
      simp [update_error_logs, hm, dictDel_of_get_none p s.error_files hg]
  · intro hg
    have hm : dictMem p s.error_files = false := by
      rw [dictMem_eq_isSome, hg]
      rfl
    simp [update_error_logs, hm]
  · intro hnd
    by_cases hm : dictMem p s.error_files
    · simp [update_error_logs, hm, dictGet_dictDel_self p s.error_files hnd]
    · have hg := hmemget (by simpa using hm)
      simp [update_error_logs, hm, hg]

/-- C3 (witness): a failure for path `a` then a success for it leave the
table empty and the `MASH_ERRORS` file absent; a single failure leaves the
file holding exactly the key `a`; a success for an absent path changes
nothing. -/
theorem error_ledger_disk_consistency_witness :
    (runOutcomes initState [(true, ['a'], 1), (false, ['a'], 2)]).mash_errors
        = none ∧
    [['a']] =
      (runOutcomes initState [(true, ['a'], 1)]).error_files.map Prod.fst ∧
    (update_error_logs false ['b'] 2 initState).error_files =
      initState.error_files := by
  refine ⟨?_, ?_, ?_⟩
  · exact (error_ledger_disk_consistency
      [(true, ['a'], 1), (false, ['a'], 2)]).1.mpr (by decide)
  · exact (error_ledger_disk_consistency [(true, ['a'], 1)]).2.1 [['a']]
      (by decide)
  · exact ((error_ledger_disk_consistency []).2.2 initState ['b'] 2).2.1
      (by decide)

/-- C4 (counterexample).  The claim says a configuration line with
malformed regex-like syntax makes configuration compilation fail, and is
not silently accepted.  But `get_paths_from_configuration` is pure string
processing and never invokes the regex engine: the line `foo(` — an
unbalanced group, a syntax error for Python's `re` — is silently accepted
and anchored into the pattern list. -/
theorem malformed_regex_line_accepted :
    get_paths_from_configuration ['/', 'p'] ['f', 'o', 'o', '('] =
      [['^', '/', 'p', '/', 'f', 'o', 'o', '(', '$']] := by
  decide

/-- C4 (amended).  `get_paths_from_configuration` performs no regex
validation at configuration time: every single-line configuration whose
stripped line is non-blank, not a comment and does not end in `'/'` —
whether or not that line is well-formed regex syntax — is accepted, and
produces exactly the anchored pattern built from it.  A malformed pattern
can therefore only fail later, when `path_matches_regexps` first hands it
to the regex engine. -/
theorem config_no_regex_validation (proj line : Path) (h0 : '\n' ∉ line)
    (h1 : pyStrip line ≠ []) (h2 : ¬ (pyStrip line).head? = some '#')
    (h3 : ¬ (pyStrip line).getLast? = some '/') :
    get_paths_from_configuration proj line =
      [get_path_regexp proj (pyStrip line)] := by
  unfold get_paths_from_configuration
  rw [splitOnChar_no_sep '\n' line h0]
  simp [collectPatterns, h1, h2, h3]

/-- C4 (witness for the amended theorem): the malformed line `foo(` is
accepted and yields its anchored pattern. -/
theorem config_no_regex_validation_witness :
    get_paths_from_configuration ['/', 'p'] ['f', 'o', 'o', '('] =
      [get_path_regexp ['/', 'p'] (pyStrip ['f', 'o', 'o', '('])] := by
  exact config_no_regex_validation ['/', 'p'] ['f', 'o', 'o', '(']
    (by decide) (by decide) (by decide) (by decide)

/-- C5.  The claim — patterns only ever match whole paths, even for a
configuration line containing alternation — is the code's evident intent
(`get_path_regexp` anchors every line with `'^'` and `'$'`), but the code
gets it wrong: the anchors are concatenated around the raw line, so in
`^/p/a|b$` the alternation bar splits the whole pattern and the left
branch `^/p/a` is not end-anchored.  `re.match` then accepts the strict
prefix `/p/a` of `/p/aXXX`, although no whole-path match of the pattern
against `/p/aXXX` exists. -/
theorem alternation_breaks_full_anchoring :
    path_matches_regexps ['/', 'p', '/', 'a', 'X', 'X', 'X']
      (get_paths_from_configuration ['/', 'p'] ['a', '|', 'b']) = true ∧
    wholePathMatch (get_path_regexp ['/', 'p'] ['a', '|', 'b'])
      (normalizeSeps ['/', 'p', '/', 'a', 'X', 'X', 'X']) = false := by
  decide

/-- C6.  During one pass over the flagged files of the watched
directories: if every file's external tool launches, the pass completes
normally — a `MinifyFailed` for one file is caught by `minify_and_log`,
recorded in the ledger, and the remaining files and directories are still
processed, each contributing exactly its recorded outcome; whereas the
pass aborts with the `sys.exit()` raised inside `minify` precisely when
some file's tool fails to launch (`OSError` from `Popen`). -/
theorem pass_failure_semantics (env : Path → LaunchResult) (now : Int)
    (dirs : List (List Path)) (s : MashState) :
    ((∀ f ∈ dirs.flatten, env f ≠ .oserror) →
      processDirectories env now dirs s =
        .ok (dirs.flatten.foldl (recordedOutcome env now) s)) ∧
    (processDirectories env now dirs s = .error .sysExit ↔
      ∃ f ∈ dirs.flatten, env f = .oserror) :=
  ⟨processDirectories_ok env now dirs s,
   processDirectories_error_iff env now dirs s⟩

/-- C6 (witness): an environment in which every launch succeeds but the
tool writes the file's own name to stderr — so every file fails to minify
— still completes a two-directory pass, recording a failure outcome for
each of the three files in order. -/
theorem pass_failure_semantics_witness :
    (∀ f ∈ [[['a'], ['b']], [['c']]].flatten,
      LaunchResult.started f ≠ LaunchResult.oserror) ∧
    processDirectories (fun f => LaunchResult.started f) 7
        [[['a'], ['b']], [['c']]] initState =
      .ok ([['a'], ['b'], ['c']].foldl
        (recordedOutcome (fun f => LaunchResult.started f) 7) initState) := by
  refine ⟨fun f _ => by simp, ?_⟩
  exact (pass_failure_semantics (fun f => LaunchResult.started f) 7
    [[['a'], ['b']], [['c']]] initState).1 (fun f _ => by simp)

/-- C7.  For every path ending in `.js` or `.css`, `get_minified_name`
replaces that final extension by `.min.js` / `.min.css` — a suffix
replacement that leaves every earlier character (hence every earlier path
segment) unchanged; in particular, with a directory segment literally
named `.js`, `get_minified_name "/a/b/.js/c/foo.js"` is
`"/a/b/.js/c/foo.min.js"`. -/
theorem get_minified_name_suffix_replacement :
    (∀ stem : Path, get_minified_name (stem ++ ['.', 'j', 's']) =
      some (stem ++ ['.', 'm', 'i', 'n', '.', 'j', 's'])) ∧
    (∀ stem : Path, get_minified_name (stem ++ ['.', 'c', 's', 's']) =
      some (stem ++ ['.', 'm', 'i', 'n', '.', 'c', 's', 's'])) ∧
    get_minified_name "/a/b/.js/c/foo.js".data =
      some "/a/b/.js/c/foo.min.js".data := by
  refine ⟨?_, ?_, by decide⟩
  · intro stem
    have h := isSuffixOf_append_self ['.', 'j', 's'] stem
    simp [get_minified_name, h, take_sub_three]
  · intro stem
    have h := isSuffixOf_append_self ['.', 'c', 's', 's'] stem
    have hjs := js_not_suffixOf_css stem
    simp [get_minified_name, h, hjs, take_sub_four]

/-- C8.  `get_paths_from_configuration` produces exactly one pattern per
eligible configuration line — a line whose stripped form is non-blank,
not a `#` comment and does not end in `'/'` — namely the anchored pattern
of that line, in order; hence the pattern count equals the eligible line
count, lines ending in `'/'` produce no pattern, and a configuration all
of whose lines are blank or comments yields the empty pattern list. -/
theorem config_pattern_per_eligible_line (proj text : Path) :
    get_paths_from_configuration proj text =
      (((splitOnChar '\n' text).map pyStrip).filter eligibleLine).map
        (get_path_regexp proj) ∧
    (get_paths_from_configuration proj text).length =
      (((splitOnChar '\n' text).map pyStrip).filter eligibleLine).length ∧
    ((∀ l ∈ (splitOnChar '\n' text).map pyStrip,
        l = [] ∨ l.head? = some '#') →
      get_paths_from_configuration proj text = []) := by
  have hmain : get_paths_from_configuration proj text =
      (((splitOnChar '\n' text).map pyStrip).filter eligibleLine).map
        (get_path_regexp proj) := collectPatterns_eq proj (splitOnChar '\n' text)
  refine ⟨hmain, by rw [hmain, List.length_map], ?_⟩
  intro hall
  rw [hmain]
  have hnil : ((splitOnChar '\n' text).map pyStrip).filter eligibleLine = [] := by
    rw [List.filter_eq_nil_iff]
    intro l hl
    rcases hall l hl with h | h <;> simp [eligibleLine, h]
  rw [hnil]
  rfl

/-- C8 (witness): the configuration `"#a\n "` consists of one comment
line and one blank line and yields the empty pattern list. -/
theorem config_pattern_per_eligible_line_witness :
    (∀ l ∈ (splitOnChar '\n' ['#', 'a', '\n', ' ']).map pyStrip,
      l = [] ∨ l.head? = some '#') ∧
    get_paths_from_configuration ['/', 'p'] ['#', 'a', '\n', ' '] = [] := by
  refine ⟨by decide, ?_⟩
  exact (config_pattern_per_eligible_line ['/', 'p']
    ['#', 'a', '\n', ' ']).2.2 (by decide)

/-- C9.  `get_minified_name` is partial: on every path ending in neither
`.js` nor `.css` the Python loop assigns nothing and the final `return`
raises `NameError` (modelled as `none`); and `is_minifiable` establishes
the needed precondition — every path it accepts makes `get_minified_name`
return a value — which is how the caller `minify_all_in_directory`
guards the call. -/
theorem get_minified_name_requires_extension (p q : Path) :
    (['.', 'j', 's'].isSuffixOf p = false →
      ['.', 'c', 's', 's'].isSuffixOf p = false →
      get_minified_name p = none) ∧
    (is_minifiable q = true → (get_minified_name q).isSome = true) := by
  constructor
  · intro h1 h2
    simp [get_minified_name, h1, h2]
  · intro hq
    rcases is_minifiable_has_ext q hq with h | h
    · have hs : ['.', 'j', 's'] <:+ q :=
        (List.isSuffixOf_iff_suffix.mp h).trans (pyBasename_suffix q)
      simp [get_minified_name, List.isSuffixOf_iff_suffix.mpr hs]
    · have hs : ['.', 'c', 's', 's'] <:+ q :=
        (List.isSuffixOf_iff_suffix.mp h).trans (pyBasename_suffix q)
      rcases hjs : ['.', 'j', 's'].isSuffixOf q with _ | _ <;>
        simp [get_minified_name, hjs, List.isSuffixOf_iff_suffix.mpr hs]

/-- C9 (witness): `a.txt` has neither extension, so `get_minified_name`
falls through to the `NameError` case; `a.js` passes `is_minifiable` and
`get_minified_name` returns a value for it. -/
theorem get_minified_name_requires_extension_witness :
    get_minified_name ['a', '.', 't', 'x', 't'] = none ∧
    (get_minified_name ['a', '.', 'j',  's']).isSome = true := by
  constructor
  · exact (get_minified_name_requires_extension
      ['a', '.', 't', 'x', 't'] ['a', '.', 'j', 's']).1 (by decide) (by decide)
  · exact (get_minified_name_requires_extension
      ['a', '.', 't', 'x', 't'] ['a', '.', 'j', 's']).2 (by decide)

/-- C10.  `is_minifiable` splits off the basename first and applies the
dotfile, extension and already-minified checks to the basename only: for
every directory prefix — hidden or not — a `.js`/`.css` file whose
basename does not start with `'.'` and is not itself a minified artifact
is eligible; in particular `is_minifiable "/a/.hidden/foo.js"` is true. -/
theorem is_minifiable_ignores_directories :
    (∀ dir base : Path, '/' ∉ base → ¬ base.head? = some '.' →
      (['.', 'j', 's'].isSuffixOf base = true ∨
        ['.', 'c', 's', 's'].isSuffixOf base = true) →
      ['.', 'm', 'i', 'n', '.', 'j', 's'].isSuffixOf base = false →
      ['.', 'm', 'i', 'n', '.', 'c', 's', 's'].isSuffixOf base = false →
      is_minifiable (dir ++ '/' :: base) = true) ∧
    is_minifiable "/a/.hidden/foo.js".data = true := by
  refine ⟨?_, by decide⟩
  intro dir base h0 h1 h2 h3 h4
  unfold is_minifiable
  simp only
  rw [pyBasename_append dir base h0]
  rcases h2 with h2 | h2 <;> simp [h1, h2, h3, h4]

/-- C10 (witness): a `.js` file with a clean basename inside a hidden
directory, assembled as directory prefix plus separator plus basename. -/
theorem is_minifiable_ignores_directories_witness :
    is_minifiable (['/', 'a', '/', '.', 'h'] ++ '/' :: ['f', '.', 'j', 's']) =
      true := by
  exact is_minifiable_ignores_directories.1 ['/', 'a', '/', '.', 'h']
    ['f', '.', 'j', 's'] (by decide) (by decide) (Or.inl (by decide))
    (by decide) (by decide)

end MashedPotato
